import Mathlib

/-! # ner: reply-tree iterator and background thread collection

A shallow embedding of `src/notmuch_iterator.cc` (the `MessageTreeIterator`)
and of `src/search_view.cc` (`collectThreads`, `refreshThreads`), with the
properties of the specification stated over it.
-/

namespace Ner

/-! ## Messages and the reply forest -/

/-- A message handle of the store: its message id and its replies, in the
order `notmuch_message_get_replies` enumerates them. -/
inductive Message where
  | mk (id : String) (replies : List Message)

/-- The value of `notmuch_message_get_message_id`. -/
def Message.id : Message → String
  | .mk i _ => i

/-- The messages enumerated by `notmuch_message_get_replies`. -/
def Message.replies : Message → List Message
  | .mk _ rs => rs

mutual
/-- Number of messages in the reply tree rooted at a message. -/
def Message.size : Message → Nat
  | .mk _ rs => 1 + forestSize rs
/-- Number of messages in a reply forest. -/
def forestSize : List Message → Nat
  | [] => 0
  | m :: ms => m.size + forestSize ms
end

mutual
/-- Pre-order listing of one reply tree: the message, then the listing of its
replies in their stored order. -/
def Message.preorder : Message → List Message
  | .mk i rs => Message.mk i rs :: preorderForest rs
/-- Pre-order listing of a forest: each tree in full before its next sibling. -/
def preorderForest : List Message → List Message
  | [] => []
  | m :: ms => m.preorder ++ preorderForest ms
end

/-! ## MessageTreeIterator (notmuch_iterator.cc) -/

/-- The iterator state: the member `std::list<notmuch_message_t *> messages`. -/
structure MessageTreeIterator where
  messages : List Message

namespace MessageTreeIterator

/-- The default constructor `MessageTreeIterator()`: an empty queue. -/
def default : MessageTreeIterator := ⟨[]⟩

/-- The function `operator*`: `messages.front()`; `none` stands for the
undefined `front()` of an empty list. -/
def deref (it : MessageTreeIterator) : Option Message :=
  it.messages.head?

/-- The function `operator++`: pop the front message, copy its replies into a
list and splice that list at the beginning of the queue; `none` stands for the
undefined `front()` / `pop_front()` of an empty list. -/
def incr (it : MessageTreeIterator) : Option MessageTreeIterator :=
  match it.messages with
  | [] => none
  | message :: rest => some ⟨message.replies ++ rest⟩

/-- The function `operator==`: equal sizes, and either size zero or `strcmp`
of the message ids of the two `back()` elements is zero. -/
def eq (a b : MessageTreeIterator) : Bool :=
  a.messages.length == b.messages.length &&
    (a.messages.length == 0 ||
      a.messages.getLast?.map Message.id == b.messages.getLast?.map Message.id)

/-- The function `operator!=`: the negation of `operator==`. -/
def ne (a b : MessageTreeIterator) : Bool :=
  !(a.eq b)

end MessageTreeIterator

/-- The function `begin(notmuch_thread_t *)`: the queue is filled with the
top-level messages of the thread, in order. -/
def threadBegin (toplevel : List Message) : MessageTreeIterator := ⟨toplevel⟩

/-- The function `end(notmuch_thread_t *)`: the default-constructed iterator. -/
def threadEnd : MessageTreeIterator := MessageTreeIterator.default

/-- Drive an iterator: while the queue is not empty, read `operator*`, record
the message and apply `operator++`.  The fuel bounds the number of rounds;
`none` is returned when the fuel runs out before the queue is empty. -/
def drive : Nat → MessageTreeIterator → Option (List Message)
  | 0, it => if it.messages.isEmpty then some [] else none
  | fuel + 1, it =>
    if it.messages.isEmpty then some []
    else
      match it.deref, it.incr with
      | some m, some next => (drive fuel next).map (fun rest => m :: rest)
      | _, _ => none

/-- The forest of the specification's example: a root with children A and B,
where A has the child A1 and B has none. -/
def exampleForest : List Message :=
  [.mk "root" [.mk "A" [.mk "A1" []], .mk "B" []]]

/-! ## Machine integers of search_view.cc

`_selectedIndex` and `_offset` are members of the base class
`LineBrowserView`; they are taken to be `int`, the type of the local `index`
assigned to `_selectedIndex` and of `lineCount()`.  The value of `getmaxy` is
an `int` and `_threads.size()` is a `size_t`.  In a mixed comparison or
subtraction the `int` operand is converted to `size_t` (64 bits); a `size_t`
stored into an `int` is reduced to 32 bits, two's complement. -/

/-- Conversion of an `int` to `size_t` (64 bits). -/
def toSize (i : Int) : Nat := (i % 2 ^ 64).toNat

/-- Conversion of a `size_t` to `int` (32 bits, two's complement). -/
def toInt (n : Nat) : Int :=
  if n % 2 ^ 32 < 2 ^ 31 then ((n % 2 ^ 32 : Nat) : Int) else ((n % 2 ^ 32 : Nat) : Int) - 2 ^ 32

/-- Subtraction of two `size_t` values (modulo 2^64). -/
def subSize (a b : Nat) : Nat := (a % 2 ^ 64 + 2 ^ 64 - b % 2 ^ 64) % 2 ^ 64

/-! ## Thread records and the producer (collectThreads) -/

/-- The record copied out of a thread handle when it is pushed onto `_threads`:
the fields `update` reads, and the thread id. -/
structure Thread where
  id : String
  newestDate : Int
  matchedMessages : Nat
  totalMessages : Nat
  authors : String
  subject : String
  tags : List String
  deriving DecidableEq, Repr

/-- A record with the given id and empty remaining fields, for examples. -/
def Thread.ofId (id : String) : Thread :=
  { id := id, newestDate := 0, matchedMessages := 0, totalMessages := 0,
    authors := "", subject := "", tags := [] }

/-- The steps of `collectThreads` that touch the mutex, the store, the shared
collection, the flag or the condition variable. -/
inductive Ev where
  | lock
  | unlock
  | databaseOpen
  | queryCreate
  | querySetSort
  | searchThreads
  | threadsValid
  | readCollecting
  | threadsGet
  | readFields
  | append
  | threadDestroy
  | notify
  | schedYield
  | threadsMoveToNext
  | storeCollecting
  | threadsDestroy
  | queryDestroy
  deriving DecidableEq, Repr

/-- The steps that are calls into the external store. `readFields` is the
construction of the record from the thread handle inside `push_back`. -/
def Ev.isStoreCall : Ev → Bool
  | .databaseOpen | .queryCreate | .querySetSort | .searchThreads | .threadsValid
  | .threadsGet | .readFields | .threadDestroy | .threadsMoveToNext
  | .threadsDestroy | .queryDestroy => true
  | _ => false

/-- Modelled from the spec: the outcome of constructing the producer's own
`Database`, whose constructor is defined outside `search_view.cc`.  Either the
connection opens, or it fails; a failure is "surfaced by leaving the
collection empty and cancellationFlag false", "not a crash": the constructor
returns, and the run goes on over a store that yields nothing. -/
inductive DatabaseOpen where
  | opened
  | failed
  deriving DecidableEq, Repr

/-- Modelled from the spec: the thread handles the query of `collectThreads`
enumerates, which depend on the `Database` constructor defined outside
`search_view.cc`: the results of the store when the connection opened, none
when it failed ("finished with zero rows"). -/
def DatabaseOpen.enumerated {H : Type} (db : DatabaseOpen) (results : List H) : List H :=
  match db with
  | .opened => results
  | .failed => []

/-- What the producer thread has done: the shared collection `_threads`, the
flag `_collecting` as the producer last left it, and the steps taken so far. -/
structure Producer where
  threads : List Thread
  collecting : Bool
  trace : List Ev

/-- Record steps. -/
def Producer.emit (s : Producer) (es : List Ev) : Producer :=
  { s with trace := s.trace ++ es }

/-- The `for` loop of `collectThreads`.  The list is what remains of the thread
iterator; `flag i` is the value of `_collecting` read by the `i`-th loop test
that reads it (the consumer may clear it at any time). Each round locks, gets
the thread handle, pushes the record built from it, destroys the handle,
notifies, unlocks, yields, and moves the iterator on. -/
def collectLoop {H : Type} (build : H → Thread) (flag : Nat → Bool) :
    Nat → List H → Producer → Producer
  | _, [], s => s.emit [.threadsValid]
  | i, h :: rest, s =>
    if flag i then
      collectLoop build flag (i + 1) rest
        { threads := s.threads ++ [build h]
          collecting := s.collecting
          trace := s.trace ++ [.threadsValid, .readCollecting, .lock, .threadsGet,
            .readFields, .append, .threadDestroy, .notify, .unlock, .schedYield,
            .threadsMoveToNext] }
    else s.emit [.threadsValid, .readCollecting]

/-- The function `SearchView::collectThreads`: `results` is the sequence of
thread handles the store holds for the query.  The function has one path to
its end: the statements before the loop, the loop, the store of `false` into
`_collecting`, the two destructions and the final signal. -/
def collectThreads {H : Type} (db : DatabaseOpen) (build : H → Thread) (results : List H)
    (flag : Nat → Bool) (s : Producer) : Producer :=
  let s1 := s.emit [.lock, .unlock, .databaseOpen]
  let s2 := s1.emit [.queryCreate, .querySetSort, .searchThreads]
  let s3 := collectLoop build flag 0 (db.enumerated results) s2
  { threads := s3.threads
    collecting := false
    trace := s3.trace ++ [.storeCollecting, .threadsDestroy, .queryDestroy, .notify] }

/-- The state in which the consumer spawns the producer: the collection has
been cleared and `_collecting` set. -/
def Producer.spawned : Producer := { threads := [], collecting := true, trace := [] }

/-- Check of a trace against a lock discipline: every step taken while the
mutex is held satisfies `allowed`. The flag says whether the mutex is held. -/
def lockDiscipline (allowed : Ev → Bool) : Bool → List Ev → Bool
  | _, [] => true
  | _, .lock :: es => lockDiscipline allowed true es
  | _, .unlock :: es => lockDiscipline allowed false es
  | held, e :: es => (!held || allowed e) && lockDiscipline allowed held es

/-- The discipline of the specification: under the mutex only the append and
the condition signal. -/
def specAllowed : Ev → Bool
  | .append | .notify => true
  | _ => false

/-- The discipline of the code: under the mutex the thread handle is fetched,
read into a record, appended and destroyed, and the condition is signalled. -/
def codeAllowed : Ev → Bool
  | .threadsGet | .readFields | .append | .threadDestroy | .notify => true
  | _ => false

/-! ## The consumer (refreshThreads)

A collection run without cancellation performs `N + 1` updates of the shared
state, in order: the `N` appends, then the store of `false` into `_collecting`.
The progress `p` of the run is the number of updates done; the consumer then
sees the first `min p N` records, and the flag set exactly when `p ≤ N`.
The producer moves only while the consumer does not hold the mutex (appends)
or at any time (the final store), so an interleaving is given by the number of
updates done during each wait of the consumer. -/

/-- The view state used by `refreshThreads`. -/
structure SearchView where
  threads : List Thread
  selectedIndex : Int
  offset : Int
  collecting : Bool
  deriving DecidableEq, Repr

/-- A wait of the consumer (`wait_for`, or the gap between spawning the thread
and taking the lock): the producer does the next scheduled number of updates.
When the schedule is used up the producer has finished. -/
def waitFor (n p : Nat) : List Nat → Nat × List Nat
  | [] => (n + 1, [])
  | d :: ds => (min (p + d) (n + 1), ds)

/-- The inner `for` loop of the search: starting at `index`, the records not
yet looked at are compared with the selected id; on a match the loop breaks
with `index` at the match. -/
def scanFrom (selectedId : String) : List Thread → Nat → Bool × Nat
  | [], index => (false, index)
  | t :: rest, index =>
    if t.id == selectedId then (true, index) else scanFrom selectedId rest (index + 1)

/-- The result of the search loop: `found`, `_selectedIndex`, the progress of
the producer and the rest of the schedule. -/
structure Located where
  found : Bool
  selectedIndex : Int
  progress : Nat
  sched : List Nat
  deriving DecidableEq, Repr

/-- The loop `while (!found && _collecting)` of `refreshThreads`: scan the
records from `index` on, then wait; `p` is the progress of the producer when
the loop test is evaluated. -/
def locate (results : List Thread) (selectedId : String) :
    Nat → Nat → Int → List Nat → Located
  | index, p, sel, sched =>
    if p ≤ results.length then
      match scanFrom selectedId ((results.take p).drop index) index with
      | (true, i) =>
        { found := true, selectedIndex := (i : Int),
          progress := (waitFor results.length p sched).1,
          sched := (waitFor results.length p sched).2 }
      | (false, i) =>
        match sched with
        | [] => { found := false, selectedIndex := sel, progress := results.length + 1, sched := [] }
        | d :: ds => locate results selectedId i (min (p + d) (results.length + 1)) sel ds
    else { found := false, selectedIndex := sel, progress := p, sched := sched }

/-- The loop `while (_threads.size() - _offset < getmaxy(_window) && _collecting)`
of `refreshThreads`; the result is the progress of the producer when the loop
is left. -/
def waitEnough (results : List Thread) (offset rows : Int) : Nat → List Nat → Nat
  | p, sched =>
    if subSize (results.take p).length (toSize offset) < toSize rows ∧ p ≤ results.length then
      match sched with
      | [] => results.length + 1
      | d :: ds => waitEnough results offset rows (min (p + d) (results.length + 1)) ds
    else p

/-- The element `*(_threads.begin() + _selectedIndex)`; `none` stands for the
undefined read outside the vector. -/
def selectedThread (threads : List Thread) (i : Int) : Option Thread :=
  if 0 ≤ i then threads.get? i.toNat else none

/-- The function `SearchView::refreshThreads`, after the join of the previous
run: `rows` is `getmaxy(_window)`, `results` the records of the new query
result, `sched` the interleaving with the new run, which opens its database
and is not cancelled.  The result is the view when the function returns
(before `makeSelectionVisible`, which scrolls); `none` stands for the undefined
read of a selected record outside the vector. -/
def refreshThreads (rows : Int) (results : List Thread) (sched : List Nat)
    (v : SearchView) : Option SearchView :=
  let empty := v.threads.isEmpty
  let selectedId : Option String :=
    if empty then some "" else (selectedThread v.threads v.selectedIndex).map Thread.id
  match selectedId with
  | none => none
  | some selectedId =>
    let start := waitFor results.length 0 sched
    let loc : Located :=
      if empty then
        { found := true, selectedIndex := v.selectedIndex, progress := start.1, sched := start.2 }
      else locate results selectedId 0 start.1 v.selectedIndex start.2
    let p := waitEnough results v.offset rows loc.progress loc.sched
    let threads := results.take p
    let sel :=
      if !loc.found ∧ threads.length ≤ toSize loc.selectedIndex then
        toInt (subSize threads.length 1)
      else loc.selectedIndex
    some { threads := threads, selectedIndex := sel, offset := v.offset,
           collecting := decide (p ≤ results.length) }

/-- The view once the collection run started by a refresh has gone on to its
end: all records collected, flag cleared. -/
def completeRun (results : List Thread) (v : SearchView) : SearchView :=
  { v with threads := results, collecting := false }

/-- One call of `refreshThreads` in a sequence: the viewport height, the query
result, the interleaving, and the scroll offset in force when the call is made. -/
structure RefreshCall where
  rows : Int
  results : List Thread
  sched : List Nat
  offset : Int

/-- A sequence of refreshes, each run to completion before the next. -/
def refreshAll : List RefreshCall → SearchView → Option SearchView
  | [], v => some v
  | c :: cs, v =>
    match refreshThreads c.rows c.results c.sched { v with offset := c.offset } with
    | none => none
    | some w => refreshAll cs (completeRun c.results w)

/-- The view after the constructor: the first run has collected `results`,
the selection index is 0 and nothing is scrolled. -/
def initialView (results : List Thread) : SearchView :=
  { threads := results, selectedIndex := 0, offset := 0, collecting := false }

/-- The selection is valid: it indexes a record of the collection. -/
def validSelection (v : SearchView) : Prop :=
  0 ≤ v.selectedIndex ∧ v.selectedIndex < v.threads.length

/-- The two refreshes of the invalid-selection example: against an empty
result, then against the single record "t". -/
def emptyThenOne : List RefreshCall :=
  [{ rows := 24, results := [], sched := [], offset := 0 },
   { rows := 24, results := [Thread.ofId "t"], sched := [1, 1], offset := 0 }]

/-- The specification's equality of two tree iterators: both queues empty, or
both non-empty with front elements of equal message id. -/
def specEq (a b : MessageTreeIterator) : Bool :=
  match a.messages, b.messages with
  | [], [] => true
  | x :: _, y :: _ => x.id == y.id
  | _, _ => false

/-- Whether the mutex is held after a sequence of steps. -/
def heldAfter : Bool → List Ev → Bool
  | held, [] => held
  | _, .lock :: es => heldAfter true es
  | _, .unlock :: es => heldAfter false es
  | held, _ :: es => heldAfter held es

/-! ## Example inputs -/

/-- Five records, as collected before a refresh. -/
def fiveBefore : List Thread :=
  [Thread.ofId "id0", Thread.ofId "id1", Thread.ofId "id2", Thread.ofId "id3", Thread.ofId "id4"]

/-- The same five identities as the store returns them on the refresh: the
thread "id3" now comes first. -/
def fiveAfter : List Thread :=
  [Thread.ofId "id3", Thread.ofId "id0", Thread.ofId "id1", Thread.ofId "id2", Thread.ofId "id4"]

/-- The view before the refresh: five records, the selection on "id3". -/
def fiveView : SearchView :=
  { threads := fiveBefore, selectedIndex := 3, offset := 0, collecting := false }

/-- A view scrolled down by three lines with the selection on its last record. -/
def scrolledView : SearchView :=
  { threads := [Thread.ofId "a", Thread.ofId "b", Thread.ofId "c", Thread.ofId "d",
      Thread.ofId "e", Thread.ofId "f"],
    selectedIndex := 5, offset := 3, collecting := false }

/-- The result of the query on the refresh of `scrolledView`: the selected
thread "f" now comes first. -/
def scrolledAfter : List Thread :=
  [Thread.ofId "f", Thread.ofId "a", Thread.ofId "b", Thread.ofId "c", Thread.ofId "d",
    Thread.ofId "e"]

/-- Three records none of which has the id "id3". -/
def threeOthers : List Thread :=
  [Thread.ofId "x", Thread.ofId "y", Thread.ofId "z"]

/-! ### Lemmas on the traversal -/

theorem preorder_eq (m : Message) : m.preorder = m :: preorderForest m.replies := by
  cases m with
  | mk i rs => simp [Message.preorder, Message.replies]

theorem size_eq (m : Message) : m.size = 1 + forestSize m.replies := by
  cases m with
  | mk i rs => simp [Message.size, Message.replies]

theorem preorderForest_append (xs ys : List Message) :
    preorderForest (xs ++ ys) = preorderForest xs ++ preorderForest ys := by
  induction xs with
  | nil => simp [preorderForest]
  | cons x xs ih => simp [preorderForest, ih]

theorem forestSize_append (xs ys : List Message) :
    forestSize (xs ++ ys) = forestSize xs + forestSize ys := by
  induction xs with
  | nil => simp [forestSize]
  | cons x xs ih => simp [forestSize, ih, Nat.add_assoc]

theorem drive_preorder (fuel : Nat) :
    ∀ q : List Message, forestSize q ≤ fuel → drive fuel ⟨q⟩ = some (preorderForest q) := by
  induction fuel with
  | zero =>
    intro q h
    cases q with
    | nil => simp [drive, preorderForest]
    | cons m ms =>
      have := size_eq m
      simp [forestSize] at h
      omega
  | succ n ih =>
    intro q h
    cases q with
    | nil => simp [drive, preorderForest]
    | cons m ms =>
      have hs := size_eq m
      have hle : forestSize (m.replies ++ ms) ≤ n := by
        rw [forestSize_append]
        simp [forestSize] at h
        omega
      simp [drive, MessageTreeIterator.deref, MessageTreeIterator.incr, ih _ hle,
        preorderForest, preorder_eq, preorderForest_append]

theorem preorderForest_length (n : Nat) :
    ∀ q : List Message, forestSize q ≤ n → (preorderForest q).length = forestSize q := by
  induction n with
  | zero =>
    intro q h
    cases q with
    | nil => simp [preorderForest, forestSize]
    | cons m ms =>
      have := size_eq m
      simp [forestSize] at h
      omega
  | succ n ih =>
    intro q h
    cases q with
    | nil => simp [preorderForest, forestSize]
    | cons m ms =>
      have hs := size_eq m
      simp [forestSize] at h
      have h1 : forestSize m.replies ≤ n := by omega
      have h2 : forestSize ms ≤ n := by omega
      simp [preorderForest, forestSize, preorder_eq, ih _ h1, ih _ h2, hs]
      omega

/-! ## Theorems: MessageTreeIterator -/

/-- C1: for every finite reply forest, the iterator that starts on the
top-level messages and is driven by `operator*` and `operator++` until its
queue is empty terminates (any fuel of at least the number of messages is
enough) and yields exactly the pre-order listing of the forest, which has one
entry per message; on the example root [A [A1], B] it yields root, A, A1, B. -/
theorem messageTreeIterator_yields_preorder :
    (∀ (toplevel : List Message) (extra : Nat),
        drive (forestSize toplevel + extra) (threadBegin toplevel)
            = some (preorderForest toplevel)
          ∧ (preorderForest toplevel).length = forestSize toplevel)
      ∧ (drive 4 (threadBegin exampleForest)).map (List.map Message.id)
          = some ["root", "A", "A1", "B"] := by
  refine ⟨fun toplevel extra => ⟨?_, ?_⟩, by decide⟩
  · exact drive_preorder _ toplevel (Nat.le_add_right _ _)
  · exact preorderForest_length _ toplevel (Nat.le_refl _)

theorem getLast?_append_singleton (xs : List Message) (x : Message) :
    (xs ++ [x]).getLast? = some x := by
  simp

theorem exists_append_singleton_of_ne_nil (l : List Message) (h : l ≠ []) :
    ∃ xs x, l = xs ++ [x] :=
  ⟨l.dropLast, l.getLast h, (List.dropLast_append_getLast h).symm⟩

/-- C2 (counterexample): the queues [m1, m2] and [m1] are both non-empty and
their front elements have the same message id, yet `operator==` is false. -/
theorem operatorEq_differs_from_front_equality :
    specEq ⟨[Message.mk "m1" [], Message.mk "m2" []]⟩ ⟨[Message.mk "m1" []]⟩ = true
      ∧ MessageTreeIterator.eq ⟨[Message.mk "m1" [], Message.mk "m2" []]⟩
          ⟨[Message.mk "m1" []]⟩ = false := by
  decide

/-- C2 (amended): `a == b` holds if and only if both queues are empty, or both
are non-empty, of equal length, and their back elements have equal message id;
the front elements play no part. -/
theorem operatorEq_iff_same_length_and_back (a b : MessageTreeIterator) :
    a.eq b = true ↔
      (a.messages = [] ∧ b.messages = []) ∨
      (∃ xs x ys y, a.messages = xs ++ [x] ∧ b.messages = ys ++ [y] ∧
        xs.length = ys.length ∧ x.id = y.id) := by
  obtain ⟨as⟩ := a
  obtain ⟨bs⟩ := b
  constructor
  · intro h
    simp only [MessageTreeIterator.eq, Bool.and_eq_true, Bool.or_eq_true, beq_iff_eq] at h
    obtain ⟨hlen, h2⟩ := h
    by_cases ha : as = []
    · left
      subst ha
      simp at hlen
      exact ⟨rfl, List.length_eq_zero.mp hlen.symm⟩
    · right
      have hb : bs ≠ [] := by
        intro hb
        subst hb
        simp at hlen
        exact ha hlen
      obtain ⟨xs, x, rfl⟩ := exists_append_singleton_of_ne_nil as ha
      obtain ⟨ys, y, rfl⟩ := exists_append_singleton_of_ne_nil bs hb
      refine ⟨xs, x, ys, y, rfl, rfl, ?_, ?_⟩
      · simpa using hlen
      · rcases h2 with h2 | h2
        · simp at h2
        · simpa using h2
  · intro h
    rcases h with ⟨ha, hb⟩ | ⟨xs, x, ys, y, ha, hb, hlen, hid⟩
    · simp only at ha hb
      subst ha
      subst hb
      rfl
    · simp only at ha hb
      subst ha
      subst hb
      simp [MessageTreeIterator.eq, hlen, hid]

/-- C3: two iterators with empty queues, the end sentinel included, compare
equal and not unequal; an iterator with an empty queue and one with a non-empty
queue compare unequal, in either order. -/
theorem exhausted_iterators_compare (a b c : MessageTreeIterator)
    (ha : a.messages = []) (hb : b.messages = []) (hc : c.messages ≠ []) :
    a.eq b = true ∧ a.ne b = false ∧
      a.eq threadEnd = true ∧ threadEnd.eq a = true ∧
      a.ne threadEnd = false ∧ threadEnd.ne a = false ∧
      a.eq c = false ∧ c.eq a = false ∧ a.ne c = true ∧ c.ne a = true := by
  obtain ⟨as⟩ := a
  obtain ⟨bs⟩ := b
  obtain ⟨cs⟩ := c
  simp only at ha hb hc
  subst ha
  subst hb
  have hlen : cs.length ≠ 0 := fun h => hc (List.length_eq_zero.mp h)
  have hlen2 : ¬ (0 = cs.length) := fun h => hlen h.symm
  simp [MessageTreeIterator.eq, MessageTreeIterator.ne, threadEnd,
    MessageTreeIterator.default, hlen, hlen2]

/-- C3 (witness): the end sentinel, a second empty iterator, and the iterator
at the start of the example forest. -/
theorem exhausted_iterators_compare_witness :
    threadEnd.messages = [] ∧ (threadBegin []).messages = [] ∧
      (threadBegin exampleForest).messages ≠ [] ∧
      threadEnd.eq (threadBegin []) = true ∧
      threadEnd.eq (threadBegin exampleForest) = false ∧
      (threadBegin exampleForest).ne threadEnd = true :=
  have h := exhausted_iterators_compare threadEnd (threadBegin []) (threadBegin exampleForest)
    rfl rfl (by simp [threadBegin, exampleForest])
  ⟨rfl, rfl, by simp [threadBegin, exampleForest], h.1, h.2.2.2.2.2.2.1, h.2.2.2.2.2.2.2.2.2⟩

/-! ## Theorems: the producer -/

theorem emit_threads (s : Producer) (es : List Ev) : (s.emit es).threads = s.threads := rfl

theorem emit_trace (s : Producer) (es : List Ev) : (s.emit es).trace = s.trace ++ es := rfl

theorem collectLoop_threads {H : Type} (build : H → Thread) (flag : Nat → Bool)
    (results : List H) :
    ∀ (i : Nat) (s : Producer), ∃ k, k ≤ results.length ∧
      (collectLoop build flag i results s).threads = s.threads ++ (results.take k).map build ∧
      ((∀ j, j < results.length → flag (i + j) = true) → k = results.length) := by
  induction results with
  | nil =>
    intro i s
    exact ⟨0, Nat.le_refl _, by simp [collectLoop, emit_threads], fun _ => rfl⟩
  | cons h rest ih =>
    intro i s
    by_cases hf : flag i = true
    · obtain ⟨k, hk, hthreads, hall⟩ := ih (i + 1)
        { threads := s.threads ++ [build h]
          collecting := s.collecting
          trace := s.trace ++ [.threadsValid, .readCollecting, .lock, .threadsGet,
            .readFields, .append, .threadDestroy, .notify, .unlock, .schedYield,
            .threadsMoveToNext] }
      refine ⟨k + 1, by simpa using hk, ?_, ?_⟩
      · simp only [collectLoop, hf, if_true]
        rw [hthreads]
        simp
      · intro hflags
        have : k = rest.length := by
          apply hall
          intro j hj
          have := hflags (j + 1) (by simpa using hj)
          simpa [Nat.add_assoc, Nat.add_comm 1 j] using this
        simp [this]
    · refine ⟨0, Nat.zero_le _, ?_, ?_⟩
      · simp [collectLoop, hf, emit_threads]
      · intro hflags
        have := hflags 0 (by simp)
        simp at this
        exact absurd this hf

/-- C6: for every query result sequence and every way the flag reads may turn
out (every cancellation point), when `collectThreads` is done the collection,
empty at the start of the run, is the sequence of records of the first `k`
results in the store's order, for some `k` at most the number of results; and
`k` is the number of results when no loop test reads the flag as cleared. -/
theorem collectThreads_collects_initial_segment {H : Type} (build : H → Thread) (results : List H)
    (flag : Nat → Bool) :
    ∃ k, k ≤ results.length ∧
      (collectThreads .opened build results flag Producer.spawned).threads
        = (results.take k).map build ∧
      ((∀ j, j < results.length → flag j = true) → k = results.length) := by
  obtain ⟨k, hk, hthreads, hall⟩ := collectLoop_threads build flag results 0
    (Producer.spawned.emit [.lock, .unlock, .databaseOpen]
      |>.emit [.queryCreate, .querySetSort, .searchThreads])
  refine ⟨k, hk, ?_, ?_⟩
  · simp only [collectThreads, DatabaseOpen.enumerated]
    rw [hthreads]
    simp [emit_threads, Producer.spawned]
  · intro hflags
    apply hall
    intro j hj
    simpa using hflags j hj

/-- C8: on every path by which `collectThreads` stops, natural exhaustion of
the query, a cancellation request observed by a loop test, or a failure to
open its own store connection, the flag `_collecting` has been stored false
when the thread exits; a store-connection failure leaves the collection empty
and the flag false. -/
theorem collectThreads_flag_at_exit {H : Type} (db : DatabaseOpen) (build : H → Thread)
    (results : List H) (flag : Nat → Bool) :
    (collectThreads db build results flag Producer.spawned).collecting = false ∧
      Ev.storeCollecting ∈ (collectThreads db build results flag Producer.spawned).trace ∧
      (collectThreads .failed build results flag Producer.spawned).threads = [] ∧
      (collectThreads .failed build results flag Producer.spawned).collecting = false := by
  refine ⟨rfl, ?_, ?_, rfl⟩
  · simp [collectThreads]
  · simp [collectThreads, DatabaseOpen.enumerated, collectLoop, Producer.emit,
      Producer.spawned]

theorem lockDiscipline_append (allowed : Ev → Bool) (xs ys : List Ev) :
    ∀ held : Bool, lockDiscipline allowed held (xs ++ ys)
      = (lockDiscipline allowed held xs && lockDiscipline allowed (heldAfter held xs) ys) := by
  induction xs with
  | nil => intro held; simp [lockDiscipline, heldAfter]
  | cons e es ih =>
    intro held
    cases e <;> simp [lockDiscipline, heldAfter, ih, Bool.and_assoc]

theorem heldAfter_append (xs ys : List Ev) :
    ∀ held : Bool, heldAfter held (xs ++ ys) = heldAfter (heldAfter held xs) ys := by
  induction xs with
  | nil => intro held; simp [heldAfter]
  | cons e es ih =>
    intro held
    cases e <;> simp [heldAfter, ih]

theorem collectLoop_discipline {H : Type} (build : H → Thread) (flag : Nat → Bool)
    (results : List H) :
    ∀ (i : Nat) (s : Producer),
      lockDiscipline codeAllowed false s.trace = true → heldAfter false s.trace = false →
      lockDiscipline codeAllowed false (collectLoop build flag i results s).trace = true ∧
        heldAfter false (collectLoop build flag i results s).trace = false := by
  induction results with
  | nil =>
    intro i s h1 h2
    simp [collectLoop, emit_trace, lockDiscipline_append, heldAfter_append, h1, h2,
      lockDiscipline, heldAfter, codeAllowed]
  | cons h rest ih =>
    intro i s h1 h2
    by_cases hf : flag i = true
    · simp only [collectLoop, hf, if_true]
      apply ih
      · simp [lockDiscipline_append, h1, h2, lockDiscipline, codeAllowed]
      · simp [heldAfter_append, h2, heldAfter]
    · simp [collectLoop, hf, emit_trace, lockDiscipline_append, heldAfter_append, h1, h2,
        lockDiscipline, heldAfter, codeAllowed]

/-- C9 (counterexample): with a single query result, the steps of
`collectThreads` break the discipline "under the mutex only the append and the
signal": the thread handle is fetched, read and destroyed under the mutex. -/
theorem collectThreads_calls_store_under_lock :
    lockDiscipline specAllowed false
        (collectThreads .opened Thread.ofId ["t1"] (fun _ => true) Producer.spawned).trace
      = false
    ∧ lockDiscipline (fun e => !e.isStoreCall) false
        (collectThreads .opened Thread.ofId ["t1"] (fun _ => true) Producer.spawned).trace
      = false
    ∧ (collectThreads .opened Thread.ofId ["t1"] (fun _ => true) Producer.spawned).trace
      = [.lock, .unlock, .databaseOpen, .queryCreate, .querySetSort, .searchThreads,
         .threadsValid, .readCollecting,
         .lock, .threadsGet, .readFields, .append, .threadDestroy, .notify, .unlock,
         .schedYield, .threadsMoveToNext, .threadsValid,
         .storeCollecting, .threadsDestroy, .queryDestroy, .notify] := by
  decide

/-- C9 (amended): in every execution of `collectThreads`, between each lock and
the matching unlock only these steps take place: `notmuch_threads_get`, the
construction of the record from the thread handle, its append,
`notmuch_thread_destroy`, and the condition signal.  Opening the database,
creating and running the query, `notmuch_threads_valid`,
`notmuch_threads_move_to_next` and the destruction of the iterator and of the
query never occur while the producer holds the mutex, and the mutex is free
when the thread exits. -/
theorem collectThreads_lock_discipline {H : Type} (db : DatabaseOpen) (build : H → Thread)
    (results : List H) (flag : Nat → Bool) :
    lockDiscipline codeAllowed false
        (collectThreads db build results flag Producer.spawned).trace = true ∧
      heldAfter false (collectThreads db build results flag Producer.spawned).trace = false ∧
      (∀ e, codeAllowed e = true → e ∉ [Ev.databaseOpen, Ev.queryCreate, Ev.querySetSort,
        Ev.searchThreads, Ev.threadsValid, Ev.threadsMoveToNext, Ev.threadsDestroy,
        Ev.queryDestroy]) := by
  have h := collectLoop_discipline build flag (db.enumerated results) 0
    (Producer.spawned.emit [.lock, .unlock, .databaseOpen]
      |>.emit [.queryCreate, .querySetSort, .searchThreads])
    (by simp [Producer.emit, Producer.spawned, lockDiscipline])
    (by simp [Producer.emit, Producer.spawned, heldAfter])
  refine ⟨?_, ?_, ?_⟩
  · simp only [collectThreads]
    rw [lockDiscipline_append, h.1, h.2]
    simp [lockDiscipline]
  · simp only [collectThreads]
    rw [heldAfter_append, h.2]
    simp [heldAfter]
  · intro e he
    cases e <;> simp [codeAllowed] at he ⊢

/-! ## Theorems: the consumer -/

theorem toSize_natCast (n : Nat) (h : n < 2 ^ 64) : toSize (n : Int) = n := by
  unfold toSize
  have h1 : ((n : Int) % 2 ^ 64) = (n : Int) := by
    apply Int.emod_eq_of_lt
    · exact Int.natCast_nonneg n
    · exact_mod_cast h
  rw [h1]
  simp

theorem toInt_of_lt (n : Nat) (h : n < 2 ^ 31) : toInt n = (n : Int) := by
  unfold toInt
  have h1 : n % 2 ^ 32 = n := Nat.mod_eq_of_lt (by omega)
  rw [h1, if_pos h]

theorem subSize_one (n : Nat) (h1 : 1 ≤ n) (h2 : n < 2 ^ 64) : subSize n 1 = n - 1 := by
  unfold subSize
  omega

theorem scanFrom_absent (selectedId : String) (l : List Thread) :
    ∀ index : Nat, (∀ t ∈ l, t.id ≠ selectedId) →
      scanFrom selectedId l index = (false, index + l.length) := by
  induction l with
  | nil => intro index _; simp [scanFrom]
  | cons t rest ih =>
    intro index h
    have ht : t.id ≠ selectedId := h t (List.mem_cons_self _ _)
    have hrest : ∀ u ∈ rest, u.id ≠ selectedId := fun u hu => h u (List.mem_cons_of_mem _ hu)
    simp [scanFrom, ht, ih (index + 1) hrest]
    omega

theorem locate_absent (results : List Thread) (selectedId : String)
    (habs : ∀ t ∈ results, t.id ≠ selectedId) :
    ∀ (sched : List Nat) (index p : Nat) (sel : Int),
      (locate results selectedId index p sel sched).found = false ∧
        (locate results selectedId index p sel sched).selectedIndex = sel ∧
        results.length < (locate results selectedId index p sel sched).progress := by
  intro sched
  induction sched with
  | nil =>
    intro index p sel
    have hscan := scanFrom_absent selectedId ((results.take p).drop index) index
      (fun t ht => habs t (List.mem_of_mem_take (List.mem_of_mem_drop ht)))
    unfold locate
    by_cases hp : p ≤ results.length
    · simp only [hp, if_true, hscan]
      simp
    · rw [if_neg hp]
      exact ⟨rfl, rfl, by show results.length < p; omega⟩
  | cons d ds ih =>
    intro index p sel
    have hscan := scanFrom_absent selectedId ((results.take p).drop index) index
      (fun t ht => habs t (List.mem_of_mem_take (List.mem_of_mem_drop ht)))
    unfold locate
    by_cases hp : p ≤ results.length
    · simp only [hp, if_true, hscan]
      exact ih _ _ _
    · rw [if_neg hp]
      exact ⟨rfl, rfl, by show results.length < p; omega⟩

theorem waitEnough_done (results : List Thread) (offset rows : Int) (p : Nat)
    (sched : List Nat) (h : results.length < p) :
    waitEnough results offset rows p sched = p := by
  unfold waitEnough
  have : ¬ p ≤ results.length := by omega
  simp [this]

/-- C5: refresh fallback.  For every refresh of a collection whose selection
index `i` points at a record, against a result of `K ≥ 1` records none of which
has the selected record's id, and for every interleaving, `refreshThreads`
returns with the run finished, the `K` records collected and the selection
index equal to `min i (K - 1)`.  The index `i` is an `int`. -/
theorem refresh_clamps_when_selection_absent (rows : Int) (results : List Thread)
    (sched : List Nat) (v : SearchView) (t : Thread)
    (hsel : selectedThread v.threads v.selectedIndex = some t)
    (hint : v.selectedIndex < 2 ^ 31)
    (habs : ∀ r ∈ results, r.id ≠ t.id)
    (hK : 1 ≤ results.length) :
    ∃ w, refreshThreads rows results sched v = some w ∧
      w.threads = results ∧ w.collecting = false ∧
      w.selectedIndex = min v.selectedIndex ((results.length : Int) - 1) := by
  obtain ⟨threads, sel, offset, collecting⟩ := v
  simp only at hsel hint
  have h0 : 0 ≤ sel := by
    by_contra hneg
    simp [selectedThread, hneg] at hsel
  obtain ⟨i, rfl⟩ := Int.eq_ofNat_of_zero_le h0
  have hi : i < 2 ^ 31 := by exact_mod_cast hint
  have hget : threads.get? i = some t := by
    simpa [selectedThread] using hsel
  have hne : threads.isEmpty = false := by
    cases threads with
    | nil => simp at hget
    | cons a as => rfl
  obtain ⟨hfound, hidx, hprog⟩ := locate_absent results t.id habs
    (waitFor results.length 0 sched).2 0 (waitFor results.length 0 sched).1 (i : Int)
  have hwait := waitEnough_done results offset rows _
    (locate results t.id 0 (waitFor results.length 0 sched).1 (i : Int)
      (waitFor results.length 0 sched).2).sched hprog
  have htake : ∀ p, results.length < p → results.take p = results :=
    fun p hp => List.take_of_length_le (by omega)
  have hrun : refreshThreads rows results sched
      { threads := threads, selectedIndex := (i : Int), offset := offset,
        collecting := collecting }
      = some { threads := results,
               selectedIndex :=
                 if results.length ≤ i then toInt (subSize results.length 1) else (i : Int),
               offset := offset, collecting := false } := by
    simp only [refreshThreads, hne, hsel, Option.map_some', Bool.false_eq_true, if_false]
    simp only [hwait, htake _ hprog, hfound, hidx, toSize_natCast i (by omega)]
    have hnot : ¬ (locate results t.id 0 (waitFor results.length 0 sched).1 (i : Int)
        (waitFor results.length 0 sched).2).progress ≤ results.length := by omega
    simp [hnot]
  refine ⟨_, hrun, rfl, rfl, ?_⟩
  show (if results.length ≤ i then toInt (subSize results.length 1) else (i : Int))
    = min (i : Int) ((results.length : Int) - 1)
  by_cases hle : results.length ≤ i
  · have hlt : results.length < 2 ^ 64 := by omega
    rw [if_pos hle, subSize_one _ hK hlt, toInt_of_lt _ (by omega)]
    omega
  · rw [if_neg hle]
    omega

/-- C5 (witness): five records with the selection on "id3" (index 3),
refreshed against three records with other ids, the producer finishing during
the consumer's second wait: the selection index becomes 2. -/
theorem refresh_clamps_when_selection_absent_witness :
    selectedThread fiveView.threads fiveView.selectedIndex = some (Thread.ofId "id3") ∧
      (∀ r ∈ threeOthers, r.id ≠ (Thread.ofId "id3").id) ∧
      ∃ w, refreshThreads 24 threeOthers [1, 1, 2] fiveView = some w ∧
        w.threads = threeOthers ∧ w.collecting = false ∧
        w.selectedIndex = min fiveView.selectedIndex (((threeOthers.length : Nat) : Int) - 1) :=
  ⟨by decide, by decide,
    refresh_clamps_when_selection_absent 24 threeOthers [1, 1, 2] fiveView (Thread.ofId "id3")
      (by decide) (by decide) (by decide) (by decide)⟩

/-- C4 (failing input): five records with the selection on "id3" (index 3);
the refresh collects the same five identities with "id3" first.  The
consumer's first scan sees an empty collection; during its wait the producer
appends all five records and clears the flag.  The search loop is left without
another scan: `refreshThreads` returns with the selection index still 3, which
is now the record "id2", while "id3" is at index 0. -/
theorem refresh_loses_selection_when_run_ends_during_wait :
    (refreshThreads 24 fiveAfter [0, 6] fiveView).map
        (fun w => (w.threads.map Thread.id, w.collecting, w.selectedIndex,
          (selectedThread w.threads w.selectedIndex).map Thread.id))
      = some (["id3", "id0", "id1", "id2", "id4"], false, 3, some "id2")
    ∧ (selectedThread fiveView.threads fiveView.selectedIndex).map Thread.id = some "id3"
    ∧ (refreshThreads 24 fiveAfter [0, 1, 5] fiveView).map (fun w => w.selectedIndex)
      = some 0 := by
  decide

/-- C7 (failing input): a view of six records scrolled down by three lines,
the selection on the last record "f", on a window of three rows.  The refresh
finds "f" as the first record of the new run, and a second record arrives
during the next wait; the second wait loop then computes `2 - 3` in `size_t`,
which is not smaller than 3, and `refreshThreads` returns with two records
collected and the run still going. -/
theorem refresh_returns_early_when_offset_exceeds_size :
    (refreshThreads 3 scrolledAfter [0, 1, 1] scrolledView).map
        (fun w => (w.threads.map Thread.id, w.collecting, w.selectedIndex, w.offset))
      = some (["f", "a"], true, 0, 3)
    ∧ subSize 2 (toSize 3) = 2 ^ 64 - 1 := by
  decide

/-- C10 (failing input): from the initial view of one record "t" (selection
index 0), a refresh against an empty result sets the selection index to
`size() - 1` with size 0, that is -1; a second refresh, against the result
["t"], takes the branch for an empty collection and leaves the index alone.
The view then holds one record and the selection index -1, which is not a
valid selection, and the lookup of the selected record at the start of a third
refresh is out of range. -/
theorem refresh_sequence_leaves_invalid_selection :
    (refreshAll (emptyThenOne.take 1) (initialView [Thread.ofId "t"])).map
        (fun w => (w.threads, w.selectedIndex)) = some ([], -1)
    ∧ (∃ w, refreshAll emptyThenOne (initialView [Thread.ofId "t"]) = some w ∧
        w.threads = [Thread.ofId "t"] ∧ w.selectedIndex = -1 ∧ ¬ validSelection w)
    ∧ refreshAll (emptyThenOne ++ [⟨24, [Thread.ofId "t"], [], 0⟩])
        (initialView [Thread.ofId "t"]) = none := by
  refine ⟨by decide, ⟨⟨[Thread.ofId "t"], -1, 0, false⟩, by decide, rfl, rfl, ?_⟩, by decide⟩
  unfold validSelection
  decide

end Ner
